import Mathlib

/-!
Verification development for the JSONL streaming parser and token/cost
aggregation engine of the cc-aqt repository.

The embedding models the TypeScript sources
  src/utils/jsonl.ts       (line parser, streaming pipeline, aggregation)
  src/tracker (token analyzer half)  (cost model, cache-hit ratio)
as pure Lean functions.  JavaScript numbers are modelled as rationals,
JS strings as Lean strings, and the host primitive JSON.parse is a
parameter (a function String to Except String Json) of every definition
that calls it, so that all definitions stay executable.  Callbacks
(onError, onProgress) are modelled by returning the list of the
invocations they would receive, in order.  Wall-clock values
(Date.now durations, new Date().toISOString()) are explicit parameters.
The bytesProcessed / duration fields of ParserStats are byte-stream and
clock values outside the line-level model and are omitted.
-/

namespace Aqt

/-- Claim-free JSON value model: the possible results of JSON.parse.
Numbers are rationals (exact model of the arithmetic the code performs),
objects are field lists (JSON.parse keeps the last duplicate key, so the
parsed object has unique keys). -/
inductive Json where
  | null : Json
  | bool : Bool → Json
  | num : ℚ → Json
  | str : String → Json
  | arr : List Json → Json
  | obj : List (String × Json) → Json

/-- JS String.prototype.trim, modelled structurally on the character list
(whitespace stripped from both ends). -/
def jsTrim (s : String) : String :=
  String.mk (((s.data.dropWhile Char.isWhitespace).reverse.dropWhile Char.isWhitespace).reverse)

/-- Emptiness of a JS string, structurally. -/
def jsIsEmpty (s : String) : Bool := s.data.isEmpty

/-- Test startsWith('#'), structurally. -/
def jsStartsWithHash (s : String) : Bool :=
  match s.data with
  | c :: _ => c = '#'
  | [] => false

/-- JS slice(0, n) on a string, structurally. -/
def jsTake (s : String) (n : Nat) : String := String.mk (s.data.take n)

/-- Code-unit comparison of two characters (JS relational operators compare
strings by code units). -/
def charLtB (a b : Char) : Bool := a.toNat < b.toNat

/-- Lexicographic code-unit comparison of character lists: the JS < on
strings. -/
def strLtB : List Char → List Char → Bool
  | [], [] => false
  | [], _ :: _ => true
  | _ :: _, [] => false
  | a :: as, b :: bs =>
    if charLtB a b then true
    else if charLtB b a then false
    else strLtB as bs

/-- JS a < b on strings. -/
def jsStrLt (a b : String) : Bool := strLtB a.data b.data

/-- JS string order a <= b, as not (b < a). -/
def jsStrLe (a b : String) : Bool := !(jsStrLt b a)

/-- Object test: JSON.parse produced a JSON object. -/
def Json.isObj : Json → Bool
  | .obj _ => true
  | _ => false

/-- Null test: property access on this value throws TypeError in JS. -/
def Json.isNull : Json → Bool
  | .null => true
  | _ => false

/-- Field lookup on a parsed object field list. -/
def lookupField : List (String × Json) → String → Option Json
  | [], _ => none
  | (k, v) :: rest, key => if k = key then some v else lookupField rest key

/-- Property access entry["k"]: undefined (none) on non-objects. -/
def Json.getField : Json → String → Option Json
  | .obj fields, key => lookupField fields key
  | _, _ => none

/-- JavaScript truthiness of a JSON value (NaN is not modelled). -/
def Json.truthy : Json → Bool
  | .null => false
  | .bool b => b
  | .num q => decide (q ≠ 0)
  | .str s => !(jsIsEmpty s)
  | .arr _ => true
  | .obj _ => true

/-- Membership test filterTypes.includes(entry.type): strict equality of a
JSON value with a string succeeds only for string values. -/
def includesStr (l : List String) : Json → Bool
  | .str s => l.contains s
  | _ => false

/-- ParseError from src/utils/jsonl.ts: line number (1-based), raw snippet
truncated to 200 characters, and the decode error message. -/
structure ParseError where
  lineNumber : Nat
  raw : String
  error : String
deriving DecidableEq, Repr

/-- ParserStats (totalLines / parsedLines / skippedLines); bytesProcessed and
duration are environment values outside the line-level model. -/
structure ParserStats where
  totalLines : Nat
  parsedLines : Nat
  skippedLines : Nat
deriving DecidableEq, Repr

/-- JSONLParserOptions (the fields the pipeline reads; validate is declared
in the source but never read; an undefined filterTypes behaves as []). -/
structure JSONLParserOptions where
  skipMalformed : Bool := true
  filterTypes : List String := []

/-- parseJsonlLine from src/utils/jsonl.ts lines 35-57.  The first component
is the returned value (null in the source becomes none), the second is the
ParseError handed to the onError callback, when one is produced. -/
def parseJsonlLine (jsonParse : String → Except String Json)
    (line : String) (lineNumber : Nat) : Option Json × Option ParseError :=
  let trimmed := jsTrim line
  if jsIsEmpty trimmed || jsStartsWithHash trimmed then
    (none, none)
  else
    match jsonParse trimmed with
    | .ok v => (some v, none)
    | .error msg =>
      (none, some { lineNumber := lineNumber, raw := jsTake trimmed 200, error := msg })

/-- The JS view of the parseJsonlLine return value: JSON.parse of the text
null succeeds and returns the JS value null, which is the same value the
function returns for a parse miss, so the callers' parsed === null sentinel
(jsonl.ts line 137) sees both as null.  In the Option encoding the some
constructor marks a non-null return, hence a successfully parsed JSON null
collapses to none. -/
def collapseNull : Option Json → Option Json
  | some .null => none
  | x => x

/-- Filter test of streamJsonl lines 145-150: with a non-empty filterTypes,
an entry is skipped exactly when entry.type is truthy and not a member of
filterTypes (so entries with an absent or falsy type pass through). -/
def dropsByFilter (opts : JSONLParserOptions) (v : Json) : Bool :=
  if opts.filterTypes.isEmpty then
    false
  else
    match v.getField "type" with
    | some t => t.truthy && !(includesStr opts.filterTypes t)
    | none => false

/-- Loop body of streamJsonl (src/utils/jsonl.ts lines 131-167), over the
decoded lines, carrying the lineNumber / parsedLines / skippedLines counters.
Returns the yielded values, the onError invocations, and the final stats. -/
def streamJsonlLoop (jsonParse : String → Except String Json)
    (opts : JSONLParserOptions) :
    List String → Nat → Nat → Nat → List Json × List ParseError × ParserStats
  | [], ln, parsed, skipped =>
    ([], [], { totalLines := ln, parsedLines := parsed, skippedLines := skipped })
  | line :: rest, ln, parsed, skipped =>
    let n := ln + 1
    let pr := parseJsonlLine jsonParse line n
    match collapseNull pr.1 with
    | some v =>
      if dropsByFilter opts v then
        streamJsonlLoop jsonParse opts rest n parsed skipped
      else
        let r := streamJsonlLoop jsonParse opts rest n (parsed + 1) skipped
        (v :: r.1, r.2.1, r.2.2)
    | none =>
      let skipped2 := if jsIsEmpty (jsTrim line) then skipped else skipped + 1
      let r := streamJsonlLoop jsonParse opts rest n parsed skipped2
      (r.1, pr.2.toList ++ r.2.1, r.2.2)

/-- streamJsonl from src/utils/jsonl.ts lines 103-168, started on the decoded
lines of the file with all counters at zero. -/
def streamJsonl (jsonParse : String → Except String Json)
    (opts : JSONLParserOptions) (lines : List String) :
    List Json × List ParseError × ParserStats :=
  streamJsonlLoop jsonParse opts lines 0 0 0

/-- ParseResult yielded by streamJsonlWithMeta. -/
structure ParseResult where
  data : Json
  lineNumber : Nat
  raw : String

/-- Loop body of streamJsonlWithMeta (src/utils/jsonl.ts lines 173-229).
The third component models the thrown exception: some msg when the generator
aborts because skipMalformed is false and a line failed to parse.  A line
whose JSON value is null is yielded when no filter is active; with a
non-empty filterTypes the filter block reads entry.type on the null value
(line 202) and throws TypeError inside the try, so the line takes the catch
path like a malformed line. -/
def streamJsonlWithMetaLoop (jsonParse : String → Except String Json)
    (opts : JSONLParserOptions) :
    List String → Nat → List ParseResult × List ParseError × Option String
  | [], _ => ([], [], none)
  | line :: rest, ln =>
    let n := ln + 1
    let trimmed := jsTrim line
    if jsIsEmpty trimmed || jsStartsWithHash trimmed then
      streamJsonlWithMetaLoop jsonParse opts rest n
    else
      match jsonParse trimmed with
      | .ok v =>
        if !opts.filterTypes.isEmpty && v.isNull then
          let e : ParseError :=
            { lineNumber := n, raw := jsTake trimmed 200, error := "TypeError" }
          if opts.skipMalformed then
            let r := streamJsonlWithMetaLoop jsonParse opts rest n
            (r.1, e :: r.2.1, r.2.2)
          else
            ([], [e], some "TypeError")
        else if dropsByFilter opts v then
          streamJsonlWithMetaLoop jsonParse opts rest n
        else
          let r := streamJsonlWithMetaLoop jsonParse opts rest n
          ({ data := v, lineNumber := n, raw := trimmed } :: r.1, r.2.1, r.2.2)
      | .error msg =>
        let e : ParseError := { lineNumber := n, raw := jsTake trimmed 200, error := msg }
        if opts.skipMalformed then
          let r := streamJsonlWithMetaLoop jsonParse opts rest n
          (r.1, e :: r.2.1, r.2.2)
        else
          ([], [e], some msg)

/-- streamJsonlWithMeta started at line number zero. -/
def streamJsonlWithMeta (jsonParse : String → Except String Json)
    (opts : JSONLParserOptions) (lines : List String) :
    List ParseResult × List ParseError × Option String :=
  streamJsonlWithMetaLoop jsonParse opts lines 0

/-- Progress reporting of streamJsonl lines 117-124: the data handler adds
each chunk size to bytesRead and invokes onProgress with the running total
whenever totalBytes is positive.  The result lists the bytesRead argument of
each onProgress invocation, in order. -/
def progressCallsFrom (totalBytes : Nat) : List Nat → Nat → List Nat
  | [], _ => []
  | c :: rest, bytesRead =>
    let b := bytesRead + c
    if 0 < totalBytes then b :: progressCallsFrom totalBytes rest b
    else progressCallsFrom totalBytes rest b

/-- Progress invocations for a whole stream of chunks, starting at zero. -/
def progressCalls (chunks : List Nat) (totalBytes : Nat) : List Nat :=
  progressCallsFrom totalBytes chunks 0

/-- TokenUsage structure of a raw log entry (all fields optional). -/
structure TokenUsage where
  input_tokens : Option ℚ := none
  output_tokens : Option ℚ := none
  cache_creation_input_tokens : Option ℚ := none
  cache_read_input_tokens : Option ℚ := none

/-- CostEstimate of TokenTotals. -/
structure CostEstimate where
  inputCost : ℚ
  outputCost : ℚ
  totalCost : ℚ
deriving DecidableEq

/-- TokenTotals as returned by calculateTokenTotals. -/
structure TokenTotals where
  input : ℚ
  output : ℚ
  cacheCreation : ℚ
  cacheRead : ℚ
  total : ℚ
  costEstimate : CostEstimate
deriving DecidableEq

/-- RawLogEntry restricted to the fields the aggregation code reads. -/
structure RawLogEntry where
  type : Option String := none
  timestamp : Option String := none
  session_id : Option String := none
  model : Option String := none
  usage : Option TokenUsage := none

/-- JavaScript x || 0 on an optional numeric field (0 is falsy, so an
absent field and a zero field both contribute 0). -/
def jsOrZero (x : Option ℚ) : ℚ := x.getD 0

/-- JavaScript s || d on an optional string (the empty string is falsy). -/
def jsOrStr (x : Option String) (d : String) : String :=
  match x with
  | some s => if jsIsEmpty s then d else s
  | none => d

/-- JavaScript truthiness of an optional string field. -/
def truthyStr : Option String → Bool
  | some s => !(jsIsEmpty s)
  | none => false

/-- calculateTokenTotals from src/utils/jsonl.ts lines 285-318. -/
def calculateTokenTotals (entries : List RawLogEntry) : TokenTotals :=
  let s := entries.foldl
    (fun (acc : ℚ × ℚ × ℚ × ℚ) (e : RawLogEntry) =>
      match e.usage with
      | some u =>
        (acc.1 + jsOrZero u.input_tokens,
         acc.2.1 + jsOrZero u.output_tokens,
         acc.2.2.1 + jsOrZero u.cache_creation_input_tokens,
         acc.2.2.2 + jsOrZero u.cache_read_input_tokens)
      | none => acc)
    (0, 0, 0, 0)
  let inputCost := (s.1 / 1000000) * 3
  let outputCost := (s.2.1 / 1000000) * 15
  let cacheReadCost := (s.2.2.2 / 1000000) * (3 / 10)
  { input := s.1
    output := s.2.1
    cacheCreation := s.2.2.1
    cacheRead := s.2.2.2
    total := s.1 + s.2.1
    costEstimate :=
      { inputCost := inputCost
        outputCost := outputCost
        totalCost := inputCost + outputCost + cacheReadCost } }

/-- PRICING table of the token analyzer (Claude Sonnet rates). -/
def PRICING_inputPerMillion : ℚ := 3

/-- Output rate of the PRICING table. -/
def PRICING_outputPerMillion : ℚ := 15

/-- Cache-read rate of the PRICING table. -/
def PRICING_cacheReadPerMillion : ℚ := 3 / 10

/-- calculateCost from the token analyzer (cost from token counts; the
source performs no validation of its arguments). -/
def calculateCost (input output cacheRead : ℚ) : ℚ :=
  (input / 1000000) * PRICING_inputPerMillion
    + (output / 1000000) * PRICING_outputPerMillion
    + (cacheRead / 1000000) * PRICING_cacheReadPerMillion

/-- calculateCacheHitRatio from the token analyzer. -/
def calculateCacheHitRatio (input cacheRead : ℚ) : ℚ :=
  if input + cacheRead = 0 then 0 else cacheRead / (input + cacheRead)

/-- messageCount record of a SessionSummary. -/
structure MessageCount where
  user : Nat := 0
  assistant : Nat := 0
  tool : Nat := 0
  system : Nat := 0
  error : Nat := 0
deriving DecidableEq

/-- SessionSummary from src/types (the fields extractSessionSummaries
produces); endTime and model stay optional exactly as in the source. -/
structure SessionSummary where
  sessionId : String
  startTime : String
  endTime : Option String := none
  model : Option String := none
  messageCount : MessageCount
  tokenUsage : TokenTotals
deriving DecidableEq

/-- All-zero TokenTotals used to initialize a fresh session. -/
def zeroTotals : TokenTotals :=
  { input := 0, output := 0, cacheCreation := 0, cacheRead := 0, total := 0
    costEstimate := { inputCost := 0, outputCost := 0, totalCost := 0 } }

/-- Session key: entry.session_id || 'unknown' (an absent or empty
session_id coalesces to the sentinel, by JS falsiness). -/
def keyOf (e : RawLogEntry) : String := jsOrStr e.session_id "unknown"

/-- Fresh summary created for a session id on its first entry
(src/utils/jsonl.ts lines 368-389); now models new Date().toISOString(). -/
def initSession (now : String) (sessionId : String) (e : RawLogEntry) : SessionSummary :=
  { sessionId := sessionId
    startTime := jsOrStr e.timestamp now
    endTime := none
    model := e.model
    messageCount := {}
    tokenUsage := zeroTotals }

/-- Timestamp update of extractSessionSummaries lines 393-401: the block
runs only for a truthy entry.timestamp; startTime keeps the smaller string,
endTime the larger (an unset or falsy current value is overwritten). -/
def updateTimes (e : RawLogEntry) (s : SessionSummary) : SessionSummary :=
  match e.timestamp with
  | some ts =>
    if jsIsEmpty ts then s
    else
      let s1 :=
        if jsIsEmpty s.startTime || jsStrLt ts s.startTime then
          { s with startTime := ts }
        else s
      match s1.endTime with
      | none => { s1 with endTime := some ts }
      | some et =>
        if jsIsEmpty et || jsStrLt et ts then { s1 with endTime := some ts }
        else s1
  | none => s

/-- Model update (lines 403-406): a truthy entry.model overwrites. -/
def updateModel (e : RawLogEntry) (s : SessionSummary) : SessionSummary :=
  if truthyStr e.model then { s with model := e.model } else s

/-- Message-type counting (the switch of lines 408-425). -/
def bumpCount (t : Option String) (mc : MessageCount) : MessageCount :=
  match t with
  | some "user" => { mc with user := mc.user + 1 }
  | some "assistant" => { mc with assistant := mc.assistant + 1 }
  | some "tool" => { mc with tool := mc.tool + 1 }
  | some "system" => { mc with system := mc.system + 1 }
  | some "error" => { mc with error := mc.error + 1 }
  | _ => mc

/-- Token accumulation (lines 427-434); total is recomputed from the
updated input and output sums. -/
def addUsage (e : RawLogEntry) (s : SessionSummary) : SessionSummary :=
  match e.usage with
  | some u =>
    let tu := s.tokenUsage
    let input := tu.input + jsOrZero u.input_tokens
    let output := tu.output + jsOrZero u.output_tokens
    { s with tokenUsage :=
      { tu with
        input := input
        output := output
        cacheCreation := tu.cacheCreation + jsOrZero u.cache_creation_input_tokens
        cacheRead := tu.cacheRead + jsOrZero u.cache_read_input_tokens
        total := input + output } }
  | none => s

/-- Whole per-entry mutation of the session found in the map, in source
order: timestamps, model, message counts, token usage. -/
def updateSession (e : RawLogEntry) (s : SessionSummary) : SessionSummary :=
  let s1 := updateTimes e s
  let s2 := updateModel e s1
  let s3 := { s2 with messageCount := bumpCount e.type s2.messageCount }
  addUsage e s3

/-- One iteration of the entry loop: insert a fresh summary when the key is
new (JS Map preserves insertion order, so insertion appends), then mutate
the summary stored under the key. -/
def upsertSession (now : String) (e : RawLogEntry) (acc : List SessionSummary) :
    List SessionSummary :=
  let key := keyOf e
  let acc2 :=
    if acc.any (fun s => s.sessionId == key) then acc
    else acc ++ [initSession now key e]
  acc2.map (fun s => if s.sessionId == key then updateSession e s else s)

/-- Final cost pass (lines 438-448). -/
def finalizeSessionCost (s : SessionSummary) : SessionSummary :=
  let tu := s.tokenUsage
  { s with tokenUsage :=
    { tu with costEstimate :=
      { inputCost := (tu.input / 1000000) * 3
        outputCost := (tu.output / 1000000) * 15
        totalCost :=
          (tu.input / 1000000) * 3 + (tu.output / 1000000) * 15
            + (tu.cacheRead / 1000000) * (3 / 10) } } }

/-- Comparator a.startTime.localeCompare(b.startTime) as a binary relation
(code-unit string order; for same-format ISO-8601 timestamps localeCompare
agrees with it). -/
def startLE (a b : SessionSummary) : Prop := jsStrLe a.startTime b.startTime = true

instance : DecidableRel startLE :=
  fun a b => instDecidableEqBool (jsStrLe a.startTime b.startTime) true

/-- Array.prototype.sort with the startTime comparator: a stable sort by
startLE (insertionSort is stable, matching the engine's stable sort). -/
def sortByStartTime (l : List SessionSummary) : List SessionSummary :=
  List.insertionSort startLE l

/-- extractSessionSummaries from src/utils/jsonl.ts lines 362-453; now
models the new Date().toISOString() fallback used when the first entry of a
session has no truthy timestamp. -/
def extractSessionSummaries (now : String) (entries : List RawLogEntry) :
    List SessionSummary :=
  sortByStartTime
    ((entries.foldl (fun acc e => upsertSession now e acc) []).map finalizeSessionCost)

/-- Blank line: empty after trimming. -/
def isBlankLine (line : String) : Bool := jsIsEmpty (jsTrim line)

/-- Count of blank lines of an input. -/
def blankCount (lines : List String) : Nat := lines.countP isBlankLine

/-- Count of lines that are blank or comments (the quantity named by the
conservation law of the spec). -/
def blankOrCommentCount (lines : List String) : Nat :=
  lines.countP (fun l => jsIsEmpty (jsTrim l) || jsStartsWithHash (jsTrim l))

/-- Line classifications of the streamJsonl loop (the value component of
parseJsonlLine does not depend on the line number, so 0 is used).  A line is
yielded when it parses and survives the type filter. -/
def lineYielded (jsonParse : String → Except String Json)
    (opts : JSONLParserOptions) (l : String) : Bool :=
  match collapseNull (parseJsonlLine jsonParse l 0).1 with
  | some v => !dropsByFilter opts v
  | none => false

/-- Line classification: parsed but dropped by the type filter. -/
def lineFiltered (jsonParse : String → Except String Json)
    (opts : JSONLParserOptions) (l : String) : Bool :=
  match collapseNull (parseJsonlLine jsonParse l 0).1 with
  | some v => dropsByFilter opts v
  | none => false

/-- Line classification: counted in skippedLines (the parsed === null
sentinel fired on a non-blank line: comment lines, malformed lines, and
lines whose JSON value is null). -/
def lineSkipped (jsonParse : String → Except String Json) (l : String) : Bool :=
  (collapseNull (parseJsonlLine jsonParse l 0).1).isNone && !(jsIsEmpty (jsTrim l))

/-- Malformed line: non-blank, non-comment, and JSON.parse fails on it. -/
def isMalformedLine (jsonParse : String → Except String Json) (l : String) : Bool :=
  !(jsIsEmpty (jsTrim l)) && !(jsStartsWithHash (jsTrim l)) &&
    (match jsonParse (jsTrim l) with
     | .ok _ => false
     | .error _ => true)

/-- Timestamps the aggregation loop actually consumes for a session key:
the truthy timestamp fields of the entries grouped under that key. -/
def truthyTimestamps (key : String) (entries : List RawLogEntry) : List String :=
  (entries.filter (fun e => keyOf e == key)).filterMap
    (fun e =>
      match e.timestamp with
      | some t => if jsIsEmpty t then none else some t
      | none => none)

/-- Truthy model fields of the entries grouped under a session key. -/
def truthyModels (key : String) (entries : List RawLogEntry) : List String :=
  (entries.filter (fun e => keyOf e == key)).filterMap
    (fun e =>
      match e.model with
      | some m => if jsIsEmpty m then none else some m
      | none => none)

/-- Timestamp contribution of one entry to its session's truthy-timestamp
list. -/
def tsCand (e : RawLogEntry) : List String :=
  match e.timestamp with
  | some t => if jsIsEmpty t then [] else [t]
  | none => []

/-- Model contribution of one entry to its session's truthy-model list. -/
def mCand (e : RawLogEntry) : List String :=
  match e.model with
  | some m => if jsIsEmpty m then [] else [m]
  | none => []

/-- Stated property of one session summary against the entries it was folded
from: startTime is the earliest truthy timestamp of its session's entries
(under the JS string order), endTime is set and is the latest, and model is
the last truthy model value when one exists. -/
def SessInv (s : SessionSummary) (entries : List RawLogEntry) : Prop :=
  (s.startTime ∈ truthyTimestamps s.sessionId entries ∧
    ∀ t ∈ truthyTimestamps s.sessionId entries, jsStrLt t s.startTime = false) ∧
  (∃ et, s.endTime = some et ∧ et ∈ truthyTimestamps s.sessionId entries ∧
    ∀ t ∈ truthyTimestamps s.sessionId entries, jsStrLt et t = false) ∧
  (∀ m, (truthyModels s.sessionId entries).getLast? = some m → s.model = some m)

/-- Concrete stand-in for JSON.parse on the handful of lines the witnesses
and counterexamples use, returning exactly what JSON.parse returns there. -/
def jsonParseDemo : String → Except String Json := fun s =>
  if s = "42" then .ok (.num 42)
  else if s = "\x7b\x7d" then .ok (.obj [])
  else if s = "\x7b\"a\":1\x7d" then .ok (.obj [("a", .num 1)])
  else if s = "\x7b\"type\":\"user\"\x7d" then .ok (.obj [("type", .str "user")])
  else if s = "\x7b\"type\":\"tool\"\x7d" then .ok (.obj [("type", .str "tool")])
  else .error "Unexpected token"

/-- DEFAULT_OPTIONS of the source: skipMalformed true, no filter. -/
def DEFAULT_OPTIONS : JSONLParserOptions := {}

/-- Options of a strict-ingestion caller. -/
def strictOpts : JSONLParserOptions := { skipMalformed := false }

/-- Options with an active type filter. -/
def filterUserOpts : JSONLParserOptions := { filterTypes := ["user"] }

/-- Entry of session s with no timestamp. -/
def entryNoTs : RawLogEntry := { session_id := some "s" }

/-- Entry of session s whose timestamp lies after the aggregation run. -/
def entryLateTs : RawLogEntry :=
  { session_id := some "s", timestamp := some "9999-01-01T00:00:00Z" }

/-- Claim C6: the cost model is deterministic on exact token counts:
one million input and output tokens cost 3.00 and 15.00 with total 18.00,
all-zero counts cost zero, adding one million cache-read tokens brings the
total to 18.30, and cache-creation tokens do not enter the cost. -/
theorem c6_cost_determinism :
    calculateCost 1000000 1000000 0 = 18 ∧
    calculateCost 0 0 0 = 0 ∧
    calculateCost 1000000 1000000 1000000 = 183 / 10 ∧
    (calculateTokenTotals
      [{ usage := some { input_tokens := some 1000000,
                         output_tokens := some 1000000 } }]).costEstimate
      = { inputCost := 3, outputCost := 15, totalCost := 18 } ∧
    (calculateTokenTotals
      [{ usage := some { input_tokens := some 1000000,
                         output_tokens := some 1000000,
                         cache_read_input_tokens := some 1000000 } }]).costEstimate.totalCost
      = 183 / 10 ∧
    (calculateTokenTotals
      [{ usage := some { input_tokens := some 1000000,
                         output_tokens := some 1000000,
                         cache_creation_input_tokens := some 999999 } }]).costEstimate
      = { inputCost := 3, outputCost := 15, totalCost := 18 } := by
  refine ⟨?_, ?_, ?_, ?_, ?_, ?_⟩ <;>
    norm_num [calculateCost, calculateTokenTotals, jsOrZero,
      PRICING_inputPerMillion, PRICING_outputPerMillion, PRICING_cacheReadPerMillion,
      CostEstimate.mk.injEq]

/-- Claim C7, counterexample: calculateCost performs no validation at all; on
the negative input count -1000000 it silently returns the (negative, and in
particular unclamped) cost -3 instead of failing with InvalidArgument. -/
theorem c7_counterexample : calculateCost (-1000000) 0 0 = -3 := by
  norm_num [calculateCost, PRICING_inputPerMillion, PRICING_outputPerMillion,
    PRICING_cacheReadPerMillion]

/-- Claim C7, amended: calculateCost is a total function with no validation:
for every input, negative included, it returns the linear rate formula (so it
neither fails nor clamps), and on non-negative inputs the result is
non-negative. -/
theorem c7_amended (input output cacheRead : ℚ)
    (hi : 0 ≤ input) (ho : 0 ≤ output) (hc : 0 ≤ cacheRead) :
    calculateCost input output cacheRead =
      (input / 1000000) * 3 + (output / 1000000) * 15
        + (cacheRead / 1000000) * (3 / 10) ∧
    0 ≤ calculateCost input output cacheRead := by
  constructor
  · rfl
  · unfold calculateCost PRICING_inputPerMillion PRICING_outputPerMillion
      PRICING_cacheReadPerMillion
    positivity

/-- Witness for the amended C7 at a concrete non-negative input. -/
theorem c7_amended_witness :
    calculateCost 1000000 2000000 0 =
      ((1000000 : ℚ) / 1000000) * 3 + ((2000000 : ℚ) / 1000000) * 15
        + ((0 : ℚ) / 1000000) * (3 / 10) ∧
    0 ≤ calculateCost 1000000 2000000 0 :=
  c7_amended 1000000 2000000 0 (by norm_num) (by norm_num) (by norm_num)

/-- Claim C10: calculateCacheHitRatio is total on non-negative inputs, the
zero-denominator case is guarded to 0, otherwise the ratio is
cacheRead / (input + cacheRead), and the result always lies in [0, 1]. -/
theorem c10_cache_hit_ratio (input cacheRead : ℚ)
    (hi : 0 ≤ input) (hc : 0 ≤ cacheRead) :
    (input + cacheRead = 0 → calculateCacheHitRatio input cacheRead = 0) ∧
    (input + cacheRead ≠ 0 →
      calculateCacheHitRatio input cacheRead = cacheRead / (input + cacheRead)) ∧
    0 ≤ calculateCacheHitRatio input cacheRead ∧
    calculateCacheHitRatio input cacheRead ≤ 1 := by
  unfold calculateCacheHitRatio
  by_cases h : input + cacheRead = 0
  · simp [h]
  · have hpos : 0 < input + cacheRead :=
      lt_of_le_of_ne (add_nonneg hi hc) (Ne.symm h)
    refine ⟨fun h0 => absurd h0 h, fun _ => by simp [h], ?_, ?_⟩
    · simp only [if_neg h]
      exact div_nonneg hc (le_of_lt hpos)
    · simp only [if_neg h]
      exact (div_le_one hpos).mpr (le_add_of_nonneg_left hi)

/-- Witness for C10 at input 1, cacheRead 3. -/
theorem c10_cache_hit_ratio_witness :
    ((1 : ℚ) + 3 = 0 → calculateCacheHitRatio 1 3 = 0) ∧
    ((1 : ℚ) + 3 ≠ 0 → calculateCacheHitRatio 1 3 = 3 / (1 + 3)) ∧
    0 ≤ calculateCacheHitRatio 1 3 ∧
    calculateCacheHitRatio 1 3 ≤ 1 :=
  c10_cache_hit_ratio 1 3 (by norm_num) (by norm_num)

/-- Claim C4, counterexample: the line 42 parses as valid JSON but is not a
JSON object; parseJsonlLine nevertheless returns it as a value and reports
no ParseError, so non-objects are not treated like malformed JSON. -/
theorem c4_counterexample :
    parseJsonlLine jsonParseDemo "42" 1 = (some (Json.num 42), none) ∧
    (Json.num 42).isObj = false :=
  ⟨rfl, rfl⟩

/-- Claim C4, amended: every line whose trimmed text is non-blank, is not a
comment, and parses successfully is returned as-is — object or not — with no
ParseError; rejection of non-object values is left to consumers. -/
theorem c4_amended (jsonParse : String → Except String Json)
    (line : String) (n : Nat) (v : Json)
    (hb : jsIsEmpty (jsTrim line) = false)
    (hcm : jsStartsWithHash (jsTrim line) = false)
    (hp : jsonParse (jsTrim line) = .ok v) :
    parseJsonlLine jsonParse line n = (some v, none) := by
  unfold parseJsonlLine
  simp [hb, hcm, hp]

/-- Witness for the amended C4 on the non-object line 42. -/
theorem c4_amended_witness :
    parseJsonlLine jsonParseDemo "42" 7 = (some (Json.num 42), none) :=
  c4_amended jsonParseDemo "42" 7 (Json.num 42) rfl rfl rfl

/-- Claim C1, counterexample: with skipMalformed set to false, streamJsonl on
a malformed first line followed by a valid line does not fail: it skips the
malformed line (counted in skippedLines) and continues, yielding the entry of
the second line. -/
theorem c1_counterexample :
    (streamJsonl jsonParseDemo strictOpts ["not json", "\x7b\"a\":1\x7d"]).1
      = [Json.obj [("a", Json.num 1)]] ∧
    (streamJsonl jsonParseDemo strictOpts ["not json", "\x7b\"a\":1\x7d"]).2.2
      = { totalLines := 2, parsedLines := 1, skippedLines := 1 } :=
  ⟨rfl, rfl⟩

/-- Claim C2, counterexample: with the non-empty filter ["user"], a parsed
entry with no type field is yielded, not dropped. -/
theorem c2_counterexample :
    (streamJsonl jsonParseDemo filterUserOpts ["\x7b\"a\":1\x7d"]).1
      = [Json.obj [("a", Json.num 1)]] :=
  rfl

/-- Claim C3, counterexample: on an empty stream (a zero-byte file: no data
chunks, totalBytes 0) onProgress is never invoked, so there is no invocation
with bytesRead equal to totalBytes, against the claimed exactly-once
completion call. -/
theorem c3_counterexample :
    progressCalls [] 0 = [] ∧ (progressCalls [] 0).count 0 ≠ 1 := by
  exact ⟨rfl, by decide⟩

/-- Claim C5, counterexample: a comment line is counted in skippedLines and
is also a blank-or-comment line, so the claimed conservation double-counts
it: parsedLines + skippedLines + blankOrComment = 0 + 1 + 1 while totalLines
is 1. -/
theorem c5_counterexample :
    (streamJsonl jsonParseDemo DEFAULT_OPTIONS ["# note"]).2.2
      = { totalLines := 1, parsedLines := 0, skippedLines := 1 } ∧
    blankOrCommentCount ["# note"] = 1 ∧
    (streamJsonl jsonParseDemo DEFAULT_OPTIONS ["# note"]).2.2.parsedLines
        + (streamJsonl jsonParseDemo DEFAULT_OPTIONS ["# note"]).2.2.skippedLines
        + blankOrCommentCount ["# note"]
      ≠ (streamJsonl jsonParseDemo DEFAULT_OPTIONS ["# note"]).2.2.totalLines := by
  refine ⟨rfl, rfl, by decide⟩

/-- Claim C9, counterexample: when the first entry of a session has no
timestamp, startTime is seeded with the wall-clock string now and, when now
precedes every later timestamp, it survives as startTime even though it is
not a timestamp of any entry: here the session's only timestamp is
9999-01-01T00:00:00Z but startTime is the seed 2026-01-01T00:00:00Z. -/
theorem c9_counterexample :
    (extractSessionSummaries "2026-01-01T00:00:00Z" [entryNoTs, entryLateTs]).map
        SessionSummary.startTime = ["2026-01-01T00:00:00Z"] ∧
    truthyTimestamps "s" [entryNoTs, entryLateTs] = ["9999-01-01T00:00:00Z"] ∧
    "2026-01-01T00:00:00Z" ∉ truthyTimestamps "s" [entryNoTs, entryLateTs] := by
  refine ⟨rfl, rfl, by decide⟩

/-- Helper: the value component of parseJsonlLine does not depend on the
line number argument. -/
theorem parseJsonlLine_fst (P : String → Except String Json) (l : String) (n m : Nat) :
    (parseJsonlLine P l n).1 = (parseJsonlLine P l m).1 := by
  unfold parseJsonlLine
  by_cases h : (jsIsEmpty (jsTrim l) || jsStartsWithHash (jsTrim l)) = true
  · simp [h]
  · simp only [Bool.not_eq_true] at h
    simp only [h, Bool.false_eq_true, if_false]
    cases hE : P (jsTrim l) <;> simp [hE]

/-- Helper: a non-null collapsed return value comes from the same parse
value. -/
theorem collapseNull_eq_some (x : Option Json) (v : Json)
    (h : collapseNull x = some v) : x = some v := by
  rcases x with _ | v0
  · simpa [collapseNull] using h
  · cases v0 <;> simpa [collapseNull] using h

/-- Helper: a line whose parse produced a value is not blank. -/
theorem parseJsonlLine_some_not_blank (P : String → Except String Json)
    (l : String) (n : Nat) (v : Json) (h : (parseJsonlLine P l n).1 = some v) :
    jsIsEmpty (jsTrim l) = false := by
  by_contra hb
  simp only [Bool.not_eq_false] at hb
  unfold parseJsonlLine at h
  simp [hb] at h

/-- Helper: the yields of the streamJsonl loop are the successfully parsed
values of the lines, filtered by the type filter, independently of the
counter state. -/
theorem streamJsonlLoop_fst (P : String → Except String Json)
    (opts : JSONLParserOptions) (lines : List String) :
    ∀ ln parsed skipped : Nat,
      (streamJsonlLoop P opts lines ln parsed skipped).1 =
        (lines.filterMap (fun l => collapseNull (parseJsonlLine P l 0).1)).filter
          (fun v => !dropsByFilter opts v) := by
  induction lines with
  | nil => intro ln p s; rfl
  | cons line rest ih =>
    intro ln p s
    have h0 : collapseNull (parseJsonlLine P line 0).1
        = collapseNull (parseJsonlLine P line (ln + 1)).1 := by
      rw [parseJsonlLine_fst P line 0 (ln + 1)]
    simp only [streamJsonlLoop]
    rcases hv : collapseNull (parseJsonlLine P line (ln + 1)).1 with _ | v
    · rw [List.filterMap_cons, h0, hv]
      exact ih (ln + 1) p _
    · rw [List.filterMap_cons, h0, hv, List.filter_cons]
      by_cases hd : dropsByFilter opts v = true
      · simp only [hd, Bool.not_true, Bool.false_eq_true, if_false]
        exact ih (ln + 1) p s
      · simp only [Bool.not_eq_true] at hd
        simp [hd, ih (ln + 1) (p + 1) s]

/-- Claim C2, amended: for every parse oracle, options and input, streamJsonl
yields exactly the successfully parsed non-null values that the filter
keeps, where a value is dropped only when filterTypes is non-empty and its
type field is truthy and not a string belonging to filterTypes; in
particular a parsed non-null entry with no entryType (absent or falsy) is
yielded even while a filter is active.  A line whose JSON value is null is
not an entry at all: the parsed === null sentinel conflates it with a parse
miss, so it is skipped without an error (collapseNull models that
conflation). -/
theorem c2_amended (P : String → Except String Json)
    (opts : JSONLParserOptions) (lines : List String) :
    (streamJsonl P opts lines).1 =
      (lines.filterMap (fun l => collapseNull (parseJsonlLine P l 0).1)).filter
        (fun v => !dropsByFilter opts v) :=
  streamJsonlLoop_fst P opts lines 0 0 0

/-- Helper: final stats of the streamJsonl loop, as counter offsets plus
per-line classification counts. -/
theorem streamJsonlLoop_stats (P : String → Except String Json)
    (opts : JSONLParserOptions) (lines : List String) :
    ∀ ln parsed skipped : Nat,
      (streamJsonlLoop P opts lines ln parsed skipped).2.2 =
        { totalLines := ln + lines.length
          parsedLines := parsed + lines.countP (lineYielded P opts)
          skippedLines := skipped + lines.countP (lineSkipped P) } := by
  induction lines with
  | nil => intro ln p s; simp [streamJsonlLoop]
  | cons line rest ih =>
    intro ln p s
    have h0 : collapseNull (parseJsonlLine P line 0).1
        = collapseNull (parseJsonlLine P line (ln + 1)).1 := by
      rw [parseJsonlLine_fst P line 0 (ln + 1)]
    simp only [streamJsonlLoop]
    rcases hv : collapseNull (parseJsonlLine P line (ln + 1)).1 with _ | v
    · have hy : lineYielded P opts line = false := by
        unfold lineYielded; rw [h0, hv]
      have hs : lineSkipped P line = ((!jsIsEmpty (jsTrim line)) : Bool) := by
        unfold lineSkipped; rw [h0, hv]; simp
      by_cases hb : jsIsEmpty (jsTrim line) = true
      · simp only [hb, if_true]
        rw [ih (ln + 1) p s]
        simp [List.countP_cons, hy, hs, hb, ParserStats.mk.injEq]
        omega
      · simp only [Bool.not_eq_true] at hb
        simp only [hb, Bool.false_eq_true, if_false]
        rw [ih (ln + 1) p (s + 1)]
        simp [List.countP_cons, hy, hs, hb, ParserStats.mk.injEq]
        omega
    · have hy : lineYielded P opts line = !dropsByFilter opts v := by
        unfold lineYielded; rw [h0, hv]
      have hs : lineSkipped P line = false := by
        unfold lineSkipped; rw [h0, hv]; simp
      by_cases hd : dropsByFilter opts v = true
      · simp only [hd, if_true]
        rw [ih (ln + 1) p s]
        simp [List.countP_cons, hy, hs, hd, ParserStats.mk.injEq]
        omega
      · simp only [Bool.not_eq_true] at hd
        simp only [hd, Bool.false_eq_true, if_false]
        rw [ih (ln + 1) (p + 1) s]
        simp [List.countP_cons, hy, hs, hd, ParserStats.mk.injEq]
        omega

/-- Helper: each line falls in exactly one of the four classes yielded,
skipped, blank, filtered. -/
theorem lineClass_partition (P : String → Except String Json)
    (opts : JSONLParserOptions) (l : String) :
    (if lineYielded P opts l then 1 else 0) + (if lineSkipped P l then 1 else 0)
      + (if isBlankLine l then 1 else 0) + (if lineFiltered P opts l then 1 else 0)
      = 1 := by
  unfold lineYielded lineSkipped isBlankLine lineFiltered
  rcases hv : collapseNull (parseJsonlLine P l 0).1 with _ | v
  · simp only [hv, Option.isNone_none, Bool.true_and]
    by_cases hb : jsIsEmpty (jsTrim l) = true <;> simp [hb]
  · have hb : jsIsEmpty (jsTrim l) = false :=
      parseJsonlLine_some_not_blank P l 0 v (collapseNull_eq_some _ v hv)
    simp only [hv, Option.isNone_some, Bool.false_and, hb]
    by_cases hd : dropsByFilter opts v = true <;> simp [hd]

/-- Helper: the four class counts partition the line count. -/
theorem lineClass_counts (P : String → Except String Json)
    (opts : JSONLParserOptions) (lines : List String) :
    lines.countP (lineYielded P opts) + lines.countP (lineSkipped P)
      + blankCount lines + lines.countP (lineFiltered P opts) = lines.length := by
  induction lines with
  | nil => rfl
  | cons l rest ih =>
    have hp := lineClass_partition P opts l
    simp only [blankCount, List.countP_cons, List.length_cons] at *
    omega

/-- Claim C5, amended: for every input and options, totalLines counts every
physical line, parsedLines the yielded entries, skippedLines every non-blank
line that produced no entry (comment lines and malformed lines alike), and
the conservation law is parsedLines + skippedLines + blankLines +
filteredOutLines = totalLines (comment lines sit inside skippedLines, not in
a separate ignored bucket, and filtered-out entries are counted nowhere
else). -/
theorem c5_amended (P : String → Except String Json)
    (opts : JSONLParserOptions) (lines : List String) :
    (streamJsonl P opts lines).2.2.totalLines = lines.length ∧
    (streamJsonl P opts lines).2.2.parsedLines = lines.countP (lineYielded P opts) ∧
    (streamJsonl P opts lines).2.2.skippedLines = lines.countP (lineSkipped P) ∧
    (streamJsonl P opts lines).2.2.parsedLines + (streamJsonl P opts lines).2.2.skippedLines
        + blankCount lines + lines.countP (lineFiltered P opts)
      = (streamJsonl P opts lines).2.2.totalLines := by
  have h := streamJsonlLoop_stats P opts lines 0 0 0
  have hc := lineClass_counts P opts lines
  unfold streamJsonl
  refine ⟨by rw [h]; simp, by rw [h]; simp, by rw [h]; simp, ?_⟩
  rw [h]
  simpa using hc

/-- Helper: with a positive totalBytes the progress handler reports after
every chunk. -/
theorem progressCallsFrom_cons (T c : Nat) (rest : List Nat) (b : Nat) (h : 0 < T) :
    progressCallsFrom T (c :: rest) b = (b + c) :: progressCallsFrom T rest (b + c) := by
  show (if 0 < T then (b + c) :: progressCallsFrom T rest (b + c)
        else progressCallsFrom T rest (b + c)) = _
  rw [if_pos h]

/-- Helper: every reported value is at least the starting bytesRead. -/
theorem progressCallsFrom_lb (T : Nat) (chunks : List Nat) :
    ∀ b, ∀ x ∈ progressCallsFrom T chunks b, b ≤ x := by
  induction chunks with
  | nil => intro b x hx; simp [progressCallsFrom] at hx
  | cons c rest ih =>
    intro b x hx
    unfold progressCallsFrom at hx
    by_cases hT : 0 < T
    · simp only [if_pos hT, List.mem_cons] at hx
      rcases hx with h | h
      · omega
      · have := ih (b + c) x h
        omega
    · simp only [if_neg hT] at hx
      have := ih (b + c) x hx
      omega

/-- Helper: with positive chunks every reported value strictly exceeds the
starting bytesRead. -/
theorem progressCallsFrom_lb_strict (T : Nat) (chunks : List Nat)
    (hpos : ∀ c ∈ chunks, 0 < c) :
    ∀ b, ∀ x ∈ progressCallsFrom T chunks b, b < x := by
  induction chunks with
  | nil => intro b x hx; simp [progressCallsFrom] at hx
  | cons c rest ih =>
    intro b x hx
    have hc : 0 < c := hpos c (List.mem_cons_self c rest)
    have hpos2 : ∀ d ∈ rest, 0 < d := fun d hd => hpos d (List.mem_cons_of_mem c hd)
    unfold progressCallsFrom at hx
    by_cases hT : 0 < T
    · simp only [if_pos hT, List.mem_cons] at hx
      rcases hx with h | h
      · omega
      · have := ih hpos2 (b + c) x h
        omega
    · simp only [if_neg hT] at hx
      have := ih hpos2 (b + c) x hx
      omega

/-- Helper: progress reports are (weakly) increasing along the stream. -/
theorem progressCallsFrom_chain (T : Nat) (chunks : List Nat) :
    ∀ b, List.Chain' (fun x y => x ≤ y) (progressCallsFrom T chunks b) := by
  induction chunks with
  | nil => intro b; simp [progressCallsFrom]
  | cons c rest ih =>
    intro b
    unfold progressCallsFrom
    by_cases hT : 0 < T
    · simp only [if_pos hT]
      refine List.chain'_cons'.mpr ⟨?_, ih (b + c)⟩
      intro y hy
      exact progressCallsFrom_lb T rest (b + c) y (List.mem_of_mem_head? hy)
    · simp only [if_neg hT]
      exact ih (b + c)

/-- Helper: with positive chunks the reports are strictly increasing. -/
theorem progressCallsFrom_chain_strict (T : Nat) (chunks : List Nat)
    (hpos : ∀ c ∈ chunks, 0 < c) :
    ∀ b, List.Chain' (fun x y => x < y) (progressCallsFrom T chunks b) := by
  induction chunks with
  | nil => intro b; simp [progressCallsFrom]
  | cons c rest ih =>
    intro b
    have hpos2 : ∀ d ∈ rest, 0 < d := fun d hd => hpos d (List.mem_cons_of_mem c hd)
    unfold progressCallsFrom
    by_cases hT : 0 < T
    · simp only [if_pos hT]
      refine List.chain'_cons'.mpr ⟨?_, ih hpos2 (b + c)⟩
      intro y hy
      exact progressCallsFrom_lb_strict T rest hpos2 (b + c) y (List.mem_of_mem_head? hy)
    · simp only [if_neg hT]
      exact ih hpos2 (b + c)

/-- Helper: the last report of a non-empty stream is the running start plus
the total chunk size. -/
theorem progressCallsFrom_getLast (T : Nat) (hT : 0 < T) (chunks : List Nat) :
    ∀ b, chunks ≠ [] →
      (progressCallsFrom T chunks b).getLast? = some (b + chunks.sum) := by
  induction chunks with
  | nil => intro b h; exact absurd rfl h
  | cons c rest ih =>
    intro b _
    rw [progressCallsFrom_cons T c rest b hT]
    by_cases hrest : rest = []
    · subst hrest
      simp [progressCallsFrom]
    · have htail := ih (b + c) hrest
      rcases hl : progressCallsFrom T rest (b + c) with _ | ⟨x, xs⟩
      · rw [hl] at htail
        exact absurd htail (by simp)
      · rw [hl] at htail
        rw [List.getLast?_cons_cons, htail, List.sum_cons]
        congr 1
        omega

/-- Claim C3, amended: bytesRead is non-decreasing across onProgress
invocations for every stream; and whenever the stream is non-empty, all its
chunks are non-empty, and totalBytes equals the total chunk size (the plain
uncompressed-file case), the last invocation carries bytesRead equal to
totalBytes and it is the only invocation that does; there is no separate
end-of-stream invocation, so an empty stream gets none. -/
theorem c3_amended (chunks : List Nat) (totalBytes : Nat)
    (hpos : ∀ c ∈ chunks, 0 < c) (hne : chunks ≠ [])
    (htot : totalBytes = chunks.sum) :
    List.Chain' (fun x y => x ≤ y) (progressCalls chunks totalBytes) ∧
    (progressCalls chunks totalBytes).getLast? = some totalBytes ∧
    (progressCalls chunks totalBytes).count totalBytes = 1 := by
  have hT : 0 < totalBytes := by
    rcases chunks with _ | ⟨c, rest⟩
    · exact absurd rfl hne
    · have := hpos c (List.mem_cons_self c rest)
      rw [htot]
      simp only [List.sum_cons]
      omega
  have hchain := progressCallsFrom_chain totalBytes chunks 0
  have hlast : (progressCalls chunks totalBytes).getLast? = some totalBytes := by
    unfold progressCalls
    rw [progressCallsFrom_getLast totalBytes hT chunks 0 hne]
    simp [htot]
  refine ⟨hchain, hlast, ?_⟩
  have hmem : totalBytes ∈ progressCalls chunks totalBytes :=
    List.mem_of_mem_getLast? (by rw [hlast]; rfl)
  have hnodup : (progressCalls chunks totalBytes).Nodup := by
    have hstrict := progressCallsFrom_chain_strict totalBytes chunks hpos 0
    have hpw : (progressCalls chunks totalBytes).Pairwise (fun x y => x < y) :=
      List.chain'_iff_pairwise.mp hstrict
    exact hpw.imp Nat.ne_of_lt
  have hle := List.nodup_iff_count_le_one.mp hnodup totalBytes
  have hpos2 : 0 < (progressCalls chunks totalBytes).count totalBytes :=
    List.count_pos_iff.mpr hmem
  omega

/-- Witness for the amended C3 on the two-chunk stream [2, 3] of a 5-byte
file: the reports are [2, 5]. -/
theorem c3_amended_witness :
    List.Chain' (fun x y => x ≤ y) (progressCalls [2, 3] 5) ∧
    (progressCalls [2, 3] 5).getLast? = some 5 ∧
    (progressCalls [2, 3] 5).count 5 = 1 :=
  c3_amended [2, 3] 5 (by decide) (by decide) (by decide)

/-- Helper: streamJsonl reads only filterTypes from its options, so two
option records with the same filterTypes produce identical runs. -/
theorem streamJsonlLoop_filterTypes_congr (P : String → Except String Json)
    (o1 o2 : JSONLParserOptions) (hft : o1.filterTypes = o2.filterTypes)
    (lines : List String) :
    ∀ ln parsed skipped : Nat,
      streamJsonlLoop P o1 lines ln parsed skipped
        = streamJsonlLoop P o2 lines ln parsed skipped := by
  have hd : ∀ v, dropsByFilter o1 v = dropsByFilter o2 v := by
    intro v
    unfold dropsByFilter
    rw [hft]
  induction lines with
  | nil => intros; rfl
  | cons line rest ih =>
    intro ln p s
    simp only [streamJsonlLoop]
    rcases hv : collapseNull (parseJsonlLine P line (ln + 1)).1 with _ | v
    · simp only [ih]
    · simp only [hd, ih]

/-- Helper: with skipMalformed false, streamJsonlWithMeta aborts on the
first malformed line: the results are those of the clean prefix and the
thrown exception is present. -/
theorem withMeta_strict_aborts (P : String → Except String Json)
    (o : JSONLParserOptions) (ho : o.skipMalformed = false)
    (bad : String) (hbad : isMalformedLine P bad = true) (post : List String) :
    ∀ (pre : List String) (ln : Nat), (∀ l ∈ pre, isMalformedLine P l = false) →
      (streamJsonlWithMetaLoop P o (pre ++ bad :: post) ln).1
        = (streamJsonlWithMetaLoop P o pre ln).1 ∧
      (streamJsonlWithMetaLoop P o (pre ++ bad :: post) ln).2.2.isSome = true := by
  intro pre
  induction pre with
  | nil =>
    intro ln _
    unfold isMalformedLine at hbad
    simp only [Bool.and_eq_true, Bool.not_eq_true'] at hbad
    obtain ⟨⟨hb, hh⟩, hm⟩ := hbad
    rcases hp : P (jsTrim bad) with msg | v
    · simp only [List.nil_append, streamJsonlWithMetaLoop]
      simp only [hb, hh, Bool.or_self, Bool.false_eq_true, if_false, hp, ho]
      simp
    · rw [hp] at hm
      simp at hm

  | cons l rest ih =>
    intro ln hpre
    have hl : isMalformedLine P l = false := hpre l (List.mem_cons_self l rest)
    have hrest : ∀ x ∈ rest, isMalformedLine P x = false :=
      fun x hx => hpre x (List.mem_cons_of_mem l hx)
    have ih2 := ih (ln + 1) hrest
    simp only [List.cons_append, streamJsonlWithMetaLoop]
    by_cases hb : (jsIsEmpty (jsTrim l) || jsStartsWithHash (jsTrim l)) = true
    · simp only [hb, if_true]
      exact ih2
    · have hb2 := hb
      simp only [Bool.or_eq_true, not_or, Bool.not_eq_true] at hb2
      obtain ⟨hbe, hbh⟩ := hb2
      simp only [Bool.not_eq_true] at hb
      simp only [hb, Bool.false_eq_true, if_false]
      rcases hp : P (jsTrim l) with msg | v
      · exfalso
        have hml : isMalformedLine P l = true := by
          unfold isMalformedLine
          simp [hbe, hbh, hp]
        rw [hl] at hml
        simp at hml
      · simp only [hp]
        by_cases hnull : (!o.filterTypes.isEmpty && v.isNull) = true
        · simp [hnull, ho]
        · simp only [Bool.not_eq_true] at hnull
          simp only [hnull, Bool.false_eq_true, if_false]
          by_cases hdd : dropsByFilter o v = true
          · simp only [hdd, if_true]
            exact ih2
          · simp only [Bool.not_eq_true] at hdd
            simp only [hdd, Bool.false_eq_true, if_false]
            exact ⟨congrArg (List.cons _) ih2.1, ih2.2⟩

/-- Claim C1, amended: only streamJsonlWithMeta honors skipMalformed: with
skipMalformed false it aborts (throws) at the first malformed line, yielding
only the entries of the clean prefix before it; streamJsonl never reads
skipMalformed and behaves identically for either value of the flag, skipping
malformed lines and continuing. -/
theorem c1_amended (P : String → Except String Json) (opts : JSONLParserOptions)
    (b : Bool) (lines pre post : List String) (bad : String)
    (hpre : ∀ l ∈ pre, isMalformedLine P l = false)
    (hbad : isMalformedLine P bad = true) :
    streamJsonl P { opts with skipMalformed := b } lines = streamJsonl P opts lines ∧
    (streamJsonlWithMeta P { opts with skipMalformed := false } (pre ++ bad :: post)).1
      = (streamJsonlWithMeta P { opts with skipMalformed := false } pre).1 ∧
    (streamJsonlWithMeta P { opts with skipMalformed := false }
        (pre ++ bad :: post)).2.2.isSome = true := by
  have h1 : streamJsonl P { opts with skipMalformed := b } lines
      = streamJsonl P opts lines :=
    streamJsonlLoop_filterTypes_congr P { opts with skipMalformed := b } opts rfl lines 0 0 0
  have h2 := withMeta_strict_aborts P { opts with skipMalformed := false } rfl
    bad hbad post pre 0 hpre
  exact ⟨h1, h2.1, h2.2⟩

/-- Witness for the amended C1: a clean one-line prefix followed by a
malformed line, under strict options. -/
theorem c1_amended_witness :
    streamJsonl jsonParseDemo { DEFAULT_OPTIONS with skipMalformed := false } ["42"]
      = streamJsonl jsonParseDemo DEFAULT_OPTIONS ["42"] ∧
    (streamJsonlWithMeta jsonParseDemo { DEFAULT_OPTIONS with skipMalformed := false }
        (["\x7b\x7d"] ++ "not json" :: [])).1
      = (streamJsonlWithMeta jsonParseDemo
          { DEFAULT_OPTIONS with skipMalformed := false } ["\x7b\x7d"]).1 ∧
    (streamJsonlWithMeta jsonParseDemo { DEFAULT_OPTIONS with skipMalformed := false }
        (["\x7b\x7d"] ++ "not json" :: [])).2.2.isSome = true :=
  c1_amended jsonParseDemo DEFAULT_OPTIONS false ["42"] ["\x7b\x7d"] [] "not json"
    (by
      intro l hl
      rw [List.mem_singleton] at hl
      subst hl
      rfl)
    rfl

/-- Helper: the code-unit lexicographic order is asymmetric. -/
theorem strLtB_asymm : ∀ a b : List Char, strLtB a b = true → strLtB b a = false := by
  intro a
  induction a with
  | nil =>
    intro b hab
    cases b with
    | nil => simp [strLtB] at hab
    | cons y ys => rfl
  | cons x xs ih =>
    intro b hab
    cases b with
    | nil => simp [strLtB] at hab
    | cons y ys =>
      simp only [strLtB, charLtB, decide_eq_true_eq] at hab ⊢
      split_ifs at hab ⊢ with h1 h2 h3 h4 <;>
        first
        | rfl
        | (exfalso; omega)
        | (exact ih ys hab)
        | simp_all

/-- Helper: the complement of the code-unit order is transitive. -/
theorem strLtB_le_trans : ∀ a b c : List Char,
    strLtB a b = false → strLtB b c = false → strLtB a c = false := by
  intro a
  induction a with
  | nil =>
    intro b c hab hbc
    cases b with
    | nil =>
      cases c with
      | nil => rfl
      | cons z zs => simp [strLtB] at hbc
    | cons y ys => simp [strLtB] at hab
  | cons x xs ih =>
    intro b c hab hbc
    cases b with
    | nil =>
      cases c with
      | nil => rfl
      | cons z zs => simp [strLtB] at hbc
    | cons y ys =>
      cases c with
      | nil => rfl
      | cons z zs =>
        simp only [strLtB, charLtB, decide_eq_true_eq] at hab hbc ⊢
        split_ifs at hab hbc ⊢ with h1 h2 h3 h4 h5 h6 <;>
          first
          | rfl
          | (exfalso; omega)
          | (exact ih ys zs hab hbc)
          | simp_all

/-- Helper: the sort comparator is total. -/
theorem startLE_total (a b : SessionSummary) : startLE a b ∨ startLE b a := by
  unfold startLE jsStrLe jsStrLt
  by_cases h : strLtB b.startTime.data a.startTime.data = true
  · right
    rw [strLtB_asymm _ _ h]
    rfl
  · left
    simp only [Bool.not_eq_true] at h
    rw [h]
    rfl

/-- Helper: the sort comparator is transitive. -/
theorem startLE_trans (a b c : SessionSummary) (hab : startLE a b) (hbc : startLE b c) :
    startLE a c := by
  unfold startLE jsStrLe jsStrLt at hab hbc ⊢
  simp only [Bool.not_eq_true'] at hab hbc ⊢
  exact strLtB_le_trans c.startTime.data b.startTime.data a.startTime.data hbc hab

/-- Helper: every per-entry mutation leaves sessionId unchanged. -/
theorem updateTimes_sessionId (e : RawLogEntry) (s : SessionSummary) :
    (updateTimes e s).sessionId = s.sessionId := by
  unfold updateTimes
  repeat' split
  all_goals try dsimp only
  all_goals repeat' split
  all_goals rfl

/-- Helper: the model update leaves sessionId unchanged. -/
theorem updateModel_sessionId (e : RawLogEntry) (s : SessionSummary) :
    (updateModel e s).sessionId = s.sessionId := by
  unfold updateModel
  split
  all_goals rfl

/-- Helper: token accumulation leaves sessionId unchanged. -/
theorem addUsage_sessionId (e : RawLogEntry) (s : SessionSummary) :
    (addUsage e s).sessionId = s.sessionId := by
  unfold addUsage
  split
  all_goals rfl

/-- Helper: the whole per-entry mutation leaves sessionId unchanged. -/
theorem updateSession_sessionId (e : RawLogEntry) (s : SessionSummary) :
    (updateSession e s).sessionId = s.sessionId := by
  unfold updateSession
  rw [addUsage_sessionId]
  show (updateModel e (updateTimes e s)).sessionId = s.sessionId
  rw [updateModel_sessionId, updateTimes_sessionId]

/-- Helper: the cost pass leaves sessionId unchanged. -/
theorem finalizeSessionCost_sessionId (s : SessionSummary) :
    (finalizeSessionCost s).sessionId = s.sessionId := rfl

/-- Helper: the cost pass leaves startTime unchanged. -/
theorem finalizeSessionCost_startTime (s : SessionSummary) :
    (finalizeSessionCost s).startTime = s.startTime := rfl

/-- Helper: the session ids stored in the map after one upsert. -/
theorem upsertSession_keys (now : String) (e : RawLogEntry) (acc : List SessionSummary) :
    (upsertSession now e acc).map SessionSummary.sessionId =
      if keyOf e ∈ acc.map SessionSummary.sessionId then
        acc.map SessionSummary.sessionId
      else
        acc.map SessionSummary.sessionId ++ [keyOf e] := by
  unfold upsertSession
  dsimp only
  have hupd : ∀ l : List SessionSummary,
      (l.map (fun s => if s.sessionId == keyOf e then updateSession e s else s)).map
        SessionSummary.sessionId = l.map SessionSummary.sessionId := by
    intro l
    rw [List.map_map]
    refine List.map_congr_left ?_
    intro s _
    show SessionSummary.sessionId (if s.sessionId == keyOf e then updateSession e s else s)
      = s.sessionId
    split
    · exact updateSession_sessionId e s
    · rfl
  have hany : (acc.any fun s => s.sessionId == keyOf e) = true
      ↔ keyOf e ∈ acc.map SessionSummary.sessionId := by
    rw [List.any_eq_true]
    constructor
    · rintro ⟨s, hs, hbeq⟩
      rw [beq_iff_eq] at hbeq
      exact hbeq ▸ List.mem_map_of_mem SessionSummary.sessionId hs
    · intro hmem
      rcases List.mem_map.mp hmem with ⟨s, hs, hid⟩
      exact ⟨s, hs, by rw [beq_iff_eq, hid]⟩
  by_cases hmem : keyOf e ∈ acc.map SessionSummary.sessionId
  · rw [if_pos hmem]
    rw [if_pos (hany.mpr hmem)]
    exact hupd acc
  · rw [if_neg hmem]
    have : (acc.any fun s => s.sessionId == keyOf e) = false := by
      by_contra hcon
      simp only [Bool.not_eq_false] at hcon
      exact hmem (hany.mp hcon)
    rw [this]
    simp only [Bool.false_eq_true, if_false]
    rw [hupd (acc ++ [initSession now (keyOf e) e]), List.map_append]
    rfl

/-- Helper: keys of the session map after folding a list of entries: nodup,
and exactly the keys of the starting map plus the entry keys. -/
theorem foldUpsert_keys (now : String) (entries : List RawLogEntry) :
    ∀ acc : List SessionSummary,
      (acc.map SessionSummary.sessionId).Nodup →
      ((entries.foldl (fun a e => upsertSession now e a) acc).map
          SessionSummary.sessionId).Nodup ∧
      ∀ k, k ∈ (entries.foldl (fun a e => upsertSession now e a) acc).map
            SessionSummary.sessionId
          ↔ (k ∈ acc.map SessionSummary.sessionId ∨ k ∈ entries.map keyOf) := by
  induction entries with
  | nil =>
    intro acc h
    exact ⟨h, fun k => by simp⟩
  | cons e rest ih =>
    intro acc h
    simp only [List.foldl_cons]
    have hkeys := upsertSession_keys now e acc
    by_cases hmem : keyOf e ∈ acc.map SessionSummary.sessionId
    · rw [if_pos hmem] at hkeys
      obtain ⟨hn, hiff⟩ := ih (upsertSession now e acc) (by rw [hkeys]; exact h)
      refine ⟨hn, fun k => ?_⟩
      rw [hiff k, hkeys]
      simp only [List.map_cons, List.mem_cons]
      constructor
      · rintro (hk | hk)
        · exact Or.inl hk
        · exact Or.inr (Or.inr hk)
      · rintro (hk | hk | hk)
        · exact Or.inl hk
        · exact Or.inl (hk.symm ▸ hmem)
        · exact Or.inr hk
    · rw [if_neg hmem] at hkeys
      have hnodup2 : ((upsertSession now e acc).map SessionSummary.sessionId).Nodup := by
        rw [hkeys]
        rw [List.nodup_append]
        refine ⟨h, List.nodup_singleton _, ?_⟩
        intro a ha hb
        rw [List.mem_singleton] at hb
        exact hmem (hb ▸ ha)
      obtain ⟨hn, hiff⟩ := ih (upsertSession now e acc) hnodup2
      refine ⟨hn, fun k => ?_⟩
      rw [hiff k, hkeys]
      simp only [List.mem_append, List.mem_singleton, List.map_cons, List.mem_cons,
        List.not_mem_nil, or_false]
      constructor
      · rintro ((hk | hk) | hk)
        · exact Or.inl hk
        · exact Or.inr (Or.inl hk)
        · exact Or.inr (Or.inr hk)
      · rintro (hk | hk | hk)
        · exact Or.inl (Or.inl hk)
        · exact Or.inl (Or.inr hk)
        · exact Or.inr hk

/-- Claim C8: extractSessionSummaries produces exactly one summary per
distinct session key (entry.session_id coalesced to the sentinel unknown
when absent — or empty, by JS falsiness), every entry lacking a session_id
lands under the unknown key, and the result is sorted ascending by startTime
under string comparison. -/
theorem c8_session_grouping (now : String) (entries : List RawLogEntry) :
    ((extractSessionSummaries now entries).map SessionSummary.sessionId).Nodup ∧
    (∀ k : String,
      k ∈ (extractSessionSummaries now entries).map SessionSummary.sessionId
        ↔ k ∈ entries.map keyOf) ∧
    List.Sorted startLE (extractSessionSummaries now entries) ∧
    (∀ t ts m u, keyOf (RawLogEntry.mk t ts none m u) = "unknown") := by
  haveI : IsTotal SessionSummary startLE := ⟨startLE_total⟩
  haveI : IsTrans SessionSummary startLE := ⟨startLE_trans⟩
  set base := entries.foldl (fun a e => upsertSession now e a) [] with hbase
  have hfold := foldUpsert_keys now entries [] (by simp)
  have hfin : (base.map finalizeSessionCost).map SessionSummary.sessionId
      = base.map SessionSummary.sessionId := by
    rw [List.map_map]
    rfl
  have hperm : List.Perm (extractSessionSummaries now entries) (base.map finalizeSessionCost) := by
    unfold extractSessionSummaries sortByStartTime
    rw [← hbase]
    exact List.perm_insertionSort startLE (base.map finalizeSessionCost)
  have hpermMap : List.Perm
      ((extractSessionSummaries now entries).map SessionSummary.sessionId)
      (base.map SessionSummary.sessionId) := by
    rw [← hfin]
    exact hperm.map SessionSummary.sessionId
  refine ⟨?_, ?_, ?_, fun t ts m u => rfl⟩
  · exact hpermMap.nodup_iff.mpr hfold.1
  · intro k
    rw [hpermMap.mem_iff, hfold.2 k]
    simp
  · unfold extractSessionSummaries sortByStartTime
    exact List.sorted_insertionSort startLE _

/-- Helper: the code-unit order is irreflexive. -/
theorem strLtB_irrefl : ∀ a : List Char, strLtB a a = false := by
  intro a
  induction a with
  | nil => rfl
  | cons x xs ih =>
    simp only [strLtB, charLtB, decide_eq_true_eq]
    split_ifs with h1 <;> first | (exfalso; omega) | exact ih | rfl

/-- Helper: the code-unit order is transitive. -/
theorem strLtB_trans : ∀ a b c : List Char,
    strLtB a b = true → strLtB b c = true → strLtB a c = true := by
  intro a
  induction a with
  | nil =>
    intro b c hab hbc
    cases b with
    | nil => simp [strLtB] at hab
    | cons y ys =>
      cases c with
      | nil => simp [strLtB] at hbc
      | cons z zs => rfl
  | cons x xs ih =>
    intro b c hab hbc
    cases b with
    | nil => simp [strLtB] at hab
    | cons y ys =>
      cases c with
      | nil => simp [strLtB] at hbc
      | cons z zs =>
        simp only [strLtB, charLtB, decide_eq_true_eq] at hab hbc ⊢
        split_ifs at hab hbc ⊢ with h1 h2 h3 h4 h5 h6 <;>
          first
          | rfl
          | (exfalso; omega)
          | (exact ih ys zs hab hbc)
          | simp_all

/-- Helper: the timestamp update leaves model unchanged. -/
theorem updateTimes_model (e : RawLogEntry) (s : SessionSummary) :
    (updateTimes e s).model = s.model := by
  unfold updateTimes
  repeat' split
  all_goals try dsimp only
  all_goals repeat' split
  all_goals rfl

/-- Helper: the model update leaves startTime unchanged. -/
theorem updateModel_startTime (e : RawLogEntry) (s : SessionSummary) :
    (updateModel e s).startTime = s.startTime := by
  unfold updateModel
  split
  all_goals rfl

/-- Helper: the model update leaves endTime unchanged. -/
theorem updateModel_endTime (e : RawLogEntry) (s : SessionSummary) :
    (updateModel e s).endTime = s.endTime := by
  unfold updateModel
  split
  all_goals rfl

/-- Helper: the model field after the model update. -/
theorem updateModel_model (e : RawLogEntry) (s : SessionSummary) :
    (updateModel e s).model = if truthyStr e.model then e.model else s.model := by
  unfold updateModel
  split
  all_goals simp_all

/-- Helper: token accumulation leaves startTime unchanged. -/
theorem addUsage_startTime (e : RawLogEntry) (s : SessionSummary) :
    (addUsage e s).startTime = s.startTime := by
  unfold addUsage
  split
  all_goals rfl

/-- Helper: token accumulation leaves endTime unchanged. -/
theorem addUsage_endTime (e : RawLogEntry) (s : SessionSummary) :
    (addUsage e s).endTime = s.endTime := by
  unfold addUsage
  split
  all_goals rfl

/-- Helper: token accumulation leaves model unchanged. -/
theorem addUsage_model (e : RawLogEntry) (s : SessionSummary) :
    (addUsage e s).model = s.model := by
  unfold addUsage
  split
  all_goals rfl

/-- Helper: startTime after the timestamp update, for a truthy timestamp:
the smaller of the old startTime and the new timestamp, with a falsy old
startTime overwritten. -/
theorem updateTimes_startTime (e : RawLogEntry) (s : SessionSummary) (ts : String)
    (hT : e.timestamp = some ts) (hne : jsIsEmpty ts = false) :
    (updateTimes e s).startTime =
      if (jsIsEmpty s.startTime || jsStrLt ts s.startTime) = true then ts
      else s.startTime := by
  unfold updateTimes
  rw [hT]
  simp only [hne, Bool.false_eq_true, if_false]
  by_cases hc : (jsIsEmpty s.startTime || jsStrLt ts s.startTime) = true
  · simp only [hc, if_true]
    try dsimp only
    repeat' split
    all_goals rfl
  · simp only [hc, if_false]
    simp only [Bool.not_eq_true] at hc
    simp only [hc, Bool.false_eq_true, if_false]
    try dsimp only
    repeat' split
    all_goals rfl

/-- Helper: endTime after the timestamp update, for a truthy timestamp: set
to the timestamp when unset, else the larger of the two (a falsy stored
endTime is overwritten). -/
theorem updateTimes_endTime (e : RawLogEntry) (s : SessionSummary) (ts : String)
    (hT : e.timestamp = some ts) (hne : jsIsEmpty ts = false) :
    (updateTimes e s).endTime =
      some (match s.endTime with
            | none => ts
            | some et => if (jsIsEmpty et || jsStrLt et ts) = true then ts else et) := by
  unfold updateTimes
  rw [hT]
  simp only [hne, Bool.false_eq_true, if_false]
  by_cases hc : (jsIsEmpty s.startTime || jsStrLt ts s.startTime) = true
  · simp only [hc, if_true]
    try dsimp only
    rcases he : s.endTime with _ | et
    · rfl
    · by_cases h2 : (jsIsEmpty et || jsStrLt et ts) = true
      · simp only [h2, if_true]
      · simp only [h2, if_false]
        simp only [Bool.not_eq_true] at h2
        simp only [h2, Bool.false_eq_true, if_false]
  · simp only [Bool.not_eq_true] at hc
    simp only [hc, Bool.false_eq_true, if_false]
    try dsimp only
    rcases he : s.endTime with _ | et
    · rfl
    · by_cases h2 : (jsIsEmpty et || jsStrLt et ts) = true
      · simp only [h2, if_true]
      · simp only [h2, if_false]
        simp only [Bool.not_eq_true] at h2
        simp only [h2, Bool.false_eq_true, if_false]
        exact he

/-- Helper: startTime after the whole per-entry mutation. -/
theorem updateSession_startTime (e : RawLogEntry) (s : SessionSummary) (ts : String)
    (hT : e.timestamp = some ts) (hne : jsIsEmpty ts = false) :
    (updateSession e s).startTime =
      if (jsIsEmpty s.startTime || jsStrLt ts s.startTime) = true then ts
      else s.startTime := by
  unfold updateSession
  rw [addUsage_startTime]
  show (updateModel e (updateTimes e s)).startTime = _
  rw [updateModel_startTime, updateTimes_startTime e s ts hT hne]

/-- Helper: endTime after the whole per-entry mutation. -/
theorem updateSession_endTime (e : RawLogEntry) (s : SessionSummary) (ts : String)
    (hT : e.timestamp = some ts) (hne : jsIsEmpty ts = false) :
    (updateSession e s).endTime =
      some (match s.endTime with
            | none => ts
            | some et => if (jsIsEmpty et || jsStrLt et ts) = true then ts else et) := by
  unfold updateSession
  rw [addUsage_endTime]
  show (updateModel e (updateTimes e s)).endTime = _
  rw [updateModel_endTime, updateTimes_endTime e s ts hT hne]

/-- Helper: model after the whole per-entry mutation. -/
theorem updateSession_model (e : RawLogEntry) (s : SessionSummary) :
    (updateSession e s).model = if truthyStr e.model then e.model else s.model := by
  unfold updateSession
  rw [addUsage_model]
  show (updateModel e (updateTimes e s)).model = _
  rw [updateModel_model, updateTimes_model]

/-- Helper: truthy timestamps of a session after appending one entry. -/
theorem truthyTimestamps_append (k : String) (done : List RawLogEntry) (e : RawLogEntry) :
    truthyTimestamps k (done ++ [e]) =
      truthyTimestamps k done ++ (if keyOf e == k then tsCand e else []) := by
  unfold truthyTimestamps
  rw [List.filter_append, List.filterMap_append]
  congr 1
  by_cases hk : (keyOf e == k) = true
  · unfold tsCand
    rcases hT : e.timestamp with _ | t
    · simp [List.filter_cons, hk, hT]
    · by_cases ht : jsIsEmpty t = true <;> simp [List.filter_cons, hk, hT, ht]
  · simp only [Bool.not_eq_true] at hk
    simp [List.filter_cons, hk]

/-- Helper: truthy models of a session after appending one entry. -/
theorem truthyModels_append (k : String) (done : List RawLogEntry) (e : RawLogEntry) :
    truthyModels k (done ++ [e]) =
      truthyModels k done ++ (if keyOf e == k then mCand e else []) := by
  unfold truthyModels
  rw [List.filter_append, List.filterMap_append]
  congr 1
  by_cases hk : (keyOf e == k) = true
  · unfold mCand
    rcases hM : e.model with _ | m
    · simp [List.filter_cons, hk, hM]
    · by_cases hm : jsIsEmpty m = true <;> simp [List.filter_cons, hk, hM, hm]
  · simp only [Bool.not_eq_true] at hk
    simp [List.filter_cons, hk]

/-- Helper: a session key with no entry yet has no truthy timestamps. -/
theorem truthyTimestamps_of_not_mem (k : String) (done : List RawLogEntry)
    (h : k ∉ done.map keyOf) : truthyTimestamps k done = [] := by
  unfold truthyTimestamps
  have hf : done.filter (fun e => keyOf e == k) = [] := by
    rw [List.filter_eq_nil_iff]
    intro e he
    simp only [Bool.not_eq_true, beq_eq_false_iff_ne, ne_eq]
    intro hk
    exact h (hk ▸ List.mem_map_of_mem keyOf he)
  rw [hf]
  rfl

/-- Helper: a session key with no entry yet has no truthy models. -/
theorem truthyModels_of_not_mem (k : String) (done : List RawLogEntry)
    (h : k ∉ done.map keyOf) : truthyModels k done = [] := by
  unfold truthyModels
  have hf : done.filter (fun e => keyOf e == k) = [] := by
    rw [List.filter_eq_nil_iff]
    intro e he
    simp only [Bool.not_eq_true, beq_eq_false_iff_ne, ne_eq]
    intro hk
    exact h (hk ▸ List.mem_map_of_mem keyOf he)
  rw [hf]
  rfl

/-- Helper: every member of a truthy-timestamp list is a non-empty string. -/
theorem mem_truthyTimestamps_nonempty (k : String) (done : List RawLogEntry)
    (t : String) (h : t ∈ truthyTimestamps k done) : jsIsEmpty t = false := by
  unfold truthyTimestamps at h
  rcases List.mem_filterMap.mp h with ⟨e, _, hg⟩
  rcases hT : e.timestamp with _ | t0
  · rw [hT] at hg
    simp at hg
  · rw [hT] at hg
    by_cases hE : jsIsEmpty t0 = true
    · simp [hE] at hg
    · simp only [Bool.not_eq_true] at hE
      simp only [hE, Bool.false_eq_true, if_false, Option.some.injEq] at hg
      exact hg ▸ hE

/-- Helper: the cost pass leaves endTime unchanged. -/
theorem finalizeSessionCost_endTime (s : SessionSummary) :
    (finalizeSessionCost s).endTime = s.endTime := rfl

/-- Helper: the cost pass leaves model unchanged. -/
theorem finalizeSessionCost_model (s : SessionSummary) :
    (finalizeSessionCost s).model = s.model := rfl

/-- Helper: an entry of another session leaves that session's invariant
untouched. -/
theorem sessInv_untouched (e : RawLogEntry) (done : List RawLogEntry)
    (s : SessionSummary) (hk : (keyOf e == s.sessionId) = false)
    (hinv : SessInv s done) : SessInv s (done ++ [e]) := by
  unfold SessInv at hinv ⊢
  rw [truthyTimestamps_append, truthyModels_append, hk]
  simp only [Bool.false_eq_true, if_false, List.append_nil]
  exact hinv

/-- Helper: a first entry with a truthy timestamp establishes the invariant
for its fresh session. -/
theorem sessInv_fresh (now : String) (e : RawLogEntry) (done : List RawLogEntry)
    (ts : String) (hT : e.timestamp = some ts) (hne : jsIsEmpty ts = false)
    (hnotin : keyOf e ∉ done.map keyOf) :
    SessInv (updateSession e (initSession now (keyOf e) e)) (done ++ [e]) := by
  have hsid : (updateSession e (initSession now (keyOf e) e)).sessionId = keyOf e := by
    rw [updateSession_sessionId]
    rfl
  have hstart0 : (initSession now (keyOf e) e).startTime = ts := by
    show jsOrStr e.timestamp now = ts
    rw [hT]
    unfold jsOrStr
    simp [hne]
  have hstart : (updateSession e (initSession now (keyOf e) e)).startTime = ts := by
    rw [updateSession_startTime e _ ts hT hne, hstart0]
    split
    · rfl
    · rfl
  have hend : (updateSession e (initSession now (keyOf e) e)).endTime = some ts := by
    rw [updateSession_endTime e _ ts hT hne]
    rfl
  have hmodel : (updateSession e (initSession now (keyOf e) e)).model = e.model := by
    rw [updateSession_model]
    split
    · rfl
    · rfl
  have htss : truthyTimestamps (keyOf e) (done ++ [e]) = [ts] := by
    rw [truthyTimestamps_append, truthyTimestamps_of_not_mem (keyOf e) done hnotin]
    simp only [beq_self_eq_true, if_true, List.nil_append]
    unfold tsCand
    rw [hT]
    simp [hne]
  have htms : truthyModels (keyOf e) (done ++ [e]) = mCand e := by
    rw [truthyModels_append, truthyModels_of_not_mem (keyOf e) done hnotin]
    simp
  unfold SessInv
  rw [hsid, hstart, hend, hmodel, htss, htms]
  refine ⟨⟨List.mem_singleton_self ts, ?_⟩, ⟨ts, rfl, List.mem_singleton_self ts, ?_⟩, ?_⟩
  · intro t ht
    rw [List.mem_singleton] at ht
    subst ht
    unfold jsStrLt
    exact strLtB_irrefl t.data
  · intro t ht
    rw [List.mem_singleton] at ht
    subst ht
    unfold jsStrLt
    exact strLtB_irrefl t.data
  · intro m hm
    unfold mCand at hm
    rcases hM : e.model with _ | m0
    · rw [hM] at hm
      simp at hm
    · rw [hM] at hm
      by_cases hE : jsIsEmpty m0 = true
      · simp [hE] at hm
      · simp only [Bool.not_eq_true] at hE
        simp only [hE, Bool.false_eq_true, if_false, List.getLast?_singleton,
          Option.some.injEq] at hm
        exact congrArg some hm

/-- Helper: an entry with a truthy timestamp preserves the invariant of its
own session. -/
theorem sessInv_update (e : RawLogEntry) (done : List RawLogEntry)
    (s : SessionSummary) (ts : String)
    (hT : e.timestamp = some ts) (hne : jsIsEmpty ts = false)
    (hk : s.sessionId = keyOf e)
    (hinv : SessInv s done) : SessInv (updateSession e s) (done ++ [e]) := by
  obtain ⟨⟨hsmem, hsmin⟩, ⟨et, hetEq, hetmem, hetmax⟩, hmod⟩ := hinv
  have hsne : jsIsEmpty s.startTime = false :=
    mem_truthyTimestamps_nonempty s.sessionId done s.startTime hsmem
  have hetne : jsIsEmpty et = false :=
    mem_truthyTimestamps_nonempty s.sessionId done et hetmem
  have hsid : (updateSession e s).sessionId = s.sessionId := updateSession_sessionId e s
  have htss : truthyTimestamps s.sessionId (done ++ [e])
      = truthyTimestamps s.sessionId done ++ [ts] := by
    rw [truthyTimestamps_append]
    rw [show (keyOf e == s.sessionId) = true from by rw [beq_iff_eq, hk]]
    simp only [if_true]
    unfold tsCand
    rw [hT]
    simp [hne]
  have htms : truthyModels s.sessionId (done ++ [e])
      = truthyModels s.sessionId done ++ mCand e := by
    rw [truthyModels_append]
    rw [show (keyOf e == s.sessionId) = true from by rw [beq_iff_eq, hk]]
    simp
  unfold SessInv
  rw [hsid, htss, htms]
  rw [updateSession_startTime e s ts hT hne, updateSession_endTime e s ts hT hne,
    updateSession_model, hetEq]
  simp only [hsne, Bool.false_or]
  refine ⟨?_, ?_, ?_⟩
  · by_cases hlt : jsStrLt ts s.startTime = true
    · simp only [hlt, if_true]
      refine ⟨List.mem_append_right _ (List.mem_singleton_self ts), ?_⟩
      intro t htm
      rcases List.mem_append.mp htm with h | h
      · by_cases hcon : jsStrLt t ts = true
        · exfalso
          have htr := strLtB_trans t.data ts.data s.startTime.data hcon hlt
          have hmin2 := hsmin t h
          unfold jsStrLt at hmin2
          rw [hmin2] at htr
          simp at htr
        · simpa using hcon
      · rw [List.mem_singleton] at h
        subst h
        exact strLtB_irrefl t.data
    · simp only [Bool.not_eq_true] at hlt
      simp only [hlt, Bool.false_eq_true, if_false]
      refine ⟨List.mem_append_left _ hsmem, ?_⟩
      intro t htm
      rcases List.mem_append.mp htm with h | h
      · exact hsmin t h
      · rw [List.mem_singleton] at h
        subst h
        exact hlt
  · simp only [hetne, Bool.false_or]
    by_cases hlt : jsStrLt et ts = true
    · simp only [hlt, if_true]
      refine ⟨ts, rfl, List.mem_append_right _ (List.mem_singleton_self ts), ?_⟩
      intro t htm
      rcases List.mem_append.mp htm with h | h
      · by_cases hcon : jsStrLt ts t = true
        · exfalso
          have htr := strLtB_trans et.data ts.data t.data hlt hcon
          have hmax2 := hetmax t h
          unfold jsStrLt at hmax2
          rw [hmax2] at htr
          simp at htr
        · simpa using hcon
      · rw [List.mem_singleton] at h
        subst h
        exact strLtB_irrefl _
    · simp only [Bool.not_eq_true] at hlt
      simp only [hlt, Bool.false_eq_true, if_false]
      refine ⟨et, rfl, List.mem_append_left _ hetmem, ?_⟩
      intro t htm
      rcases List.mem_append.mp htm with h | h
      · exact hetmax t h
      · rw [List.mem_singleton] at h
        subst h
        exact hlt
  · intro m hm
    by_cases hMt : truthyStr e.model = true
    · rcases hM : e.model with _ | m0
      · rw [hM] at hMt
        simp [truthyStr] at hMt
      · have hm0 : jsIsEmpty m0 = false := by
          rw [hM] at hMt
          unfold truthyStr at hMt
          simpa using hMt
        have hcand : mCand e = [m0] := by
          unfold mCand
          rw [hM]
          simp [hm0]
        rw [hcand, List.getLast?_concat] at hm
        have hMt2 : truthyStr (some m0) = true := by
          rw [← hM]
          exact hMt
        rw [if_pos hMt2]
        exact hm
    · simp only [Bool.not_eq_true] at hMt
      have hcand : mCand e = [] := by
        unfold mCand
        rcases hM : e.model with _ | m0
        · rfl
        · rw [hM] at hMt
          unfold truthyStr at hMt
          rw [Bool.not_eq_false'] at hMt
          simp [hMt]
      rw [hcand, List.append_nil] at hm
      simp only [hMt, Bool.false_eq_true, if_false]
      exact hmod m hm

/-- Helper: one upsert step preserves the per-session invariant for every
summary in the map, for an entry with a truthy timestamp. -/
theorem upsert_inv (now : String) (e : RawLogEntry) (done : List RawLogEntry)
    (acc : List SessionSummary) (ts : String)
    (hT : e.timestamp = some ts) (hne : jsIsEmpty ts = false)
    (hkeys : ∀ k, k ∈ acc.map SessionSummary.sessionId ↔ k ∈ done.map keyOf)
    (hinv : ∀ s ∈ acc, SessInv s done) :
    ∀ s2 ∈ upsertSession now e acc, SessInv s2 (done ++ [e]) := by
  intro s2 hs2
  unfold upsertSession at hs2
  dsimp only at hs2
  by_cases hmem : (acc.any fun s => s.sessionId == keyOf e) = true
  · rw [if_pos hmem] at hs2
    rcases List.mem_map.mp hs2 with ⟨s, hs, hfs⟩
    by_cases hsk : (s.sessionId == keyOf e) = true
    · rw [if_pos hsk] at hfs
      subst hfs
      exact sessInv_update e done s ts hT hne (by rwa [beq_iff_eq] at hsk) (hinv s hs)
    · rw [if_neg hsk] at hfs
      rw [← hfs]
      refine sessInv_untouched e done s ?_ (hinv s hs)
      simp only [Bool.not_eq_true] at hsk
      rw [beq_eq_false_iff_ne] at hsk ⊢
      exact fun hcon => hsk hcon.symm
  · have hmem2 : (acc.any fun s => s.sessionId == keyOf e) = false := by
      simpa using hmem
    rw [if_neg hmem] at hs2
    have hnotin : keyOf e ∉ done.map keyOf := by
      intro hcon
      rcases List.mem_map.mp ((hkeys (keyOf e)).mpr hcon) with ⟨s0, hs0, hid⟩
      have hx : (acc.any fun s => s.sessionId == keyOf e) = true := by
        rw [List.any_eq_true]
        refine ⟨s0, hs0, ?_⟩
        rw [beq_iff_eq]
        exact hid
      rw [hmem2] at hx
      simp at hx
    rcases List.mem_map.mp hs2 with ⟨s, hs, hfs⟩
    rcases List.mem_append.mp hs with hsa | hsi
    · have hsk : (s.sessionId == keyOf e) = false := by
        by_contra hcc
        simp only [Bool.not_eq_false] at hcc
        have hx : (acc.any fun s => s.sessionId == keyOf e) = true := by
          rw [List.any_eq_true]
          exact ⟨s, hsa, hcc⟩
        rw [hmem2] at hx
        simp at hx
      rw [if_neg (by simp [hsk])] at hfs
      rw [← hfs]
      refine sessInv_untouched e done s ?_ (hinv s hsa)
      rw [beq_eq_false_iff_ne] at hsk ⊢
      exact fun hcon => hsk hcon.symm
    · rw [List.mem_singleton] at hsi
      subst hsi
      have hsk : ((initSession now (keyOf e) e).sessionId == keyOf e) = true := by
        rw [beq_iff_eq]
        rfl
      rw [if_pos hsk] at hfs
      subst hfs
      exact sessInv_fresh now e done ts hT hne hnotin

/-- Helper: folding entries with truthy timestamps from a map satisfying the
key and session invariants keeps both. -/
theorem foldUpsert_inv (now : String) :
    ∀ (rest done : List RawLogEntry) (acc : List SessionSummary),
      (∀ e ∈ rest, truthyStr e.timestamp = true) →
      (∀ k, k ∈ acc.map SessionSummary.sessionId ↔ k ∈ done.map keyOf) →
      (∀ s ∈ acc, SessInv s done) →
      ∀ s ∈ rest.foldl (fun a e => upsertSession now e a) acc, SessInv s (done ++ rest) := by
  intro rest
  induction rest with
  | nil =>
    intro done acc _ _ hinv s hs
    simp only [List.foldl_nil] at hs
    simpa using hinv s hs
  | cons e rest ih =>
    intro done acc hts hkeys hinv s hs
    simp only [List.foldl_cons] at hs
    have hte := hts e (List.mem_cons_self e rest)
    rcases hT : e.timestamp with _ | ts
    · rw [hT] at hte
      simp [truthyStr] at hte
    · have hne : jsIsEmpty ts = false := by
        rw [hT] at hte
        unfold truthyStr at hte
        simpa using hte
      have hkeys2 : ∀ k, k ∈ (upsertSession now e acc).map SessionSummary.sessionId
          ↔ k ∈ (done ++ [e]).map keyOf := by
        intro k
        rw [upsertSession_keys, List.map_append]
        by_cases hmem : keyOf e ∈ acc.map SessionSummary.sessionId
        · rw [if_pos hmem]
          rw [hkeys k]
          simp only [List.mem_append, List.map_cons, List.map_nil, List.mem_singleton,
            List.not_mem_nil, or_false, List.mem_cons]
          constructor
          · exact Or.inl
          · rintro (h | h)
            · exact h
            · exact h.symm ▸ (hkeys (keyOf e)).mp hmem
        · rw [if_neg hmem]
          simp only [List.mem_append, List.mem_singleton, List.map_cons, List.map_nil,
            List.not_mem_nil, or_false, List.mem_cons]
          rw [hkeys k]
      have hinv2 := upsert_inv now e done acc ts hT hne hkeys hinv
      have hres := ih (done ++ [e]) (upsertSession now e acc)
        (fun x hx => hts x (List.mem_cons_of_mem e hx)) hkeys2 hinv2 s hs
      rw [List.append_assoc] at hres
      simpa using hres

/-- Claim C9, amended: when every entry carries a truthy timestamp, each
produced summary satisfies SessInv: its startTime is a timestamp of its own
session and precedes (in the JS string order) every timestamp of the
session, its endTime is set to a timestamp of the session that no session
timestamp exceeds, and whenever the session has truthy model values the
summary's model is the last of them.  (Without the timestamp hypothesis,
startTime can instead be the wall-clock seed: see the counterexample.) -/
theorem c9_amended (now : String) (entries : List RawLogEntry)
    (hts : ∀ e ∈ entries, truthyStr e.timestamp = true) :
    ∀ s ∈ extractSessionSummaries now entries, SessInv s entries := by
  intro s hs
  unfold extractSessionSummaries sortByStartTime at hs
  have hperm := List.perm_insertionSort startLE
    ((entries.foldl (fun a e => upsertSession now e a) []).map finalizeSessionCost)
  have hs2 : s ∈ (entries.foldl (fun a e => upsertSession now e a) []).map
      finalizeSessionCost := hperm.mem_iff.mp hs
  rcases List.mem_map.mp hs2 with ⟨s0, hs0, hfin⟩
  have hinv0 : SessInv s0 entries := by
    have hres := foldUpsert_inv now entries [] []
      hts (by simp) (by intro s1 hs1; simp at hs1) s0 hs0
    simpa using hres
  subst hfin
  exact hinv0

/-- Witness for the amended C9 on a two-entry session with out-of-order
timestamps and two models: the produced summary starts at the earlier
timestamp, ends at the later one, and carries the last model. -/
theorem c9_amended_witness :
    SessInv
      { sessionId := "s", startTime := "2024-01-01T00:00:00Z",
        endTime := some "2024-01-02T00:00:00Z", model := some "m2",
        messageCount := {},
        tokenUsage :=
          { input := 0, output := 0, cacheCreation := 0, cacheRead := 0, total := 0,
            costEstimate :=
              { inputCost := ((0 : ℚ) / 1000000) * 3
                outputCost := ((0 : ℚ) / 1000000) * 15
                totalCost := ((0 : ℚ) / 1000000) * 3 + ((0 : ℚ) / 1000000) * 15
                  + ((0 : ℚ) / 1000000) * (3 / 10) } } }
      [{ session_id := some "s", timestamp := some "2024-01-02T00:00:00Z",
         model := some "m1" },
       { session_id := some "s", timestamp := some "2024-01-01T00:00:00Z",
         model := some "m2" }] :=
  c9_amended "N"
    [{ session_id := some "s", timestamp := some "2024-01-02T00:00:00Z",
       model := some "m1" },
     { session_id := some "s", timestamp := some "2024-01-01T00:00:00Z",
       model := some "m2" }]
    (by decide)
    { sessionId := "s", startTime := "2024-01-01T00:00:00Z",
      endTime := some "2024-01-02T00:00:00Z", model := some "m2",
      messageCount := {},
      tokenUsage :=
        { input := 0, output := 0, cacheCreation := 0, cacheRead := 0, total := 0,
          costEstimate :=
            { inputCost := ((0 : ℚ) / 1000000) * 3
              outputCost := ((0 : ℚ) / 1000000) * 15
              totalCost := ((0 : ℚ) / 1000000) * 3 + ((0 : ℚ) / 1000000) * 15
                + ((0 : ℚ) / 1000000) * (3 / 10) } } }
    (List.mem_singleton.mpr rfl)

end Aqt
